import Mathlib

/-!
Verification of the Discogs "Hide listings from blocked sellers" userscript
(`discogs/Discogs： Hide listings from blocked sellers.user.js`).

The script's logic is embedded shallowly:

* `canon` embeds `canon` (lowercase + strip non-alphanumerics);
* `loadBlockedList` / `saveBlockedList` embed the storage layer, with
  `localStorage` modelled by `Storage` (the value under the single key,
  plus a flag modelling `setItem` throwing, e.g. quota exceeded) and the
  outcome of `localStorage.getItem` + `JSON.parse` modelled by `StoredRaw`
  over a JSON value type `JVal`;
* a listing row's script-managed state (the `data-userscript-processed`,
  `data-blocked-by-userscript`, `data-hidden-by-userscript` attributes and
  `style.display`) is the structure `Row`; the DOM extraction strategies of
  `extractSellerFromRow` query page markup that is external to the logic,
  so a row carries its extraction outcome as `Row.seller : Option String`
  (`none` = no strategy succeeded);
* `processListings`, `toggleHiddenRows` and the Save-button handler
  (`saveBtnClick`) embed the reconciliation pass, the show/hide toggle and
  the reset-on-save path.
-/

namespace DiscogsBlocker

/-- The `DEFAULT_BLOCKLIST` constant of the script. -/
def DEFAULT_BLOCKLIST : List String :=
  ["KUPIKU-COM", "KUPIKU-US", "KUPIKU-EU", "ongaku_express", "justicker", "magius"]

/-- JSON values, the possible results of `JSON.parse`.  Objects are not
needed by any code path under verification (`Array.isArray` is `false` for
them, like for the other non-array constructors), so an opaque-free stand-in
constructor `jobj` without fields suffices for "some non-array value". -/
inductive JVal where
  | jnull : JVal
  | jbool : Bool → JVal
  | jnum : Int → JVal
  | jstr : String → JVal
  | jarr : List JVal → JVal
  | jobj : JVal
deriving Repr

/-- Whether a JSON value is a string (`typeof v === 'string'`). -/
def JVal.isStr : JVal → Bool
  | JVal.jstr _ => true
  | _ => false

/-- Outcome of `localStorage.getItem(STORAGE_KEY)` followed by `JSON.parse`:
the key is absent (`getItem` returned `null`), the raw value is the empty
string (also falsy, caught by `if (!raw)`), `JSON.parse` threw, or parsing
succeeded with some JSON value. -/
inductive StoredRaw where
  | missing : StoredRaw
  | emptyStr : StoredRaw
  | badParse : StoredRaw
  | parsed : JVal → StoredRaw
deriving Repr

/-- Characters removed by JavaScript `String.prototype.trim` (the ASCII
whitespace members plus NBSP; the further Unicode space characters play no
role in any input considered here). -/
def isJsSpace (c : Char) : Bool :=
  c == ' ' || c == '\t' || c == '\n' || c == '\r' ||
    c == Char.ofNat 0x0B || c == Char.ofNat 0x0C || c == Char.ofNat 0xA0

/-- `String.prototype.trim` on the character list: drop whitespace from the
front, then from the back. -/
def trimData (l : List Char) : List Char :=
  List.rdropWhile isJsSpace (List.dropWhile isJsSpace l)

/-- `String.prototype.trim`. -/
def jsTrim (s : String) : String :=
  String.mk (trimData s.data)

/-- `String.prototype.toLowerCase` restricted to its effect on characters
that can contribute to the canonical key: ASCII uppercase letters map to the
corresponding lowercase letters, everything else is left alone (any
non-ASCII result of the real `toLowerCase` is erased by the `[^a-z0-9]`
strip that always follows). -/
def jsToLower (c : Char) : Char :=
  if 65 ≤ c.toNat ∧ c.toNat ≤ 90 then Char.ofNat (c.toNat + 32) else c

/-- Membership in the character class `[a-z0-9]` of the script's regex. -/
def isLowerAlnum (c : Char) : Bool :=
  decide ((97 ≤ c.toNat ∧ c.toNat ≤ 122) ∨ (48 ≤ c.toNat ∧ c.toNat ≤ 57))

/-- Body of `canon` on the character list: `.toLowerCase()` then
`.replace(/[^a-z0-9]/g, '')`. -/
def canonData (l : List Char) : List Char :=
  List.filter isLowerAlnum (l.map jsToLower)

/-- The script's `canon(s)`: `if (!s) return ''` (null or empty string are
falsy), otherwise lowercase and strip every character outside `[a-z0-9]`. -/
def canon : Option String → String
  | none => ""
  | some s => if s = "" then "" else String.mk (canonData s.data)

/-- The per-element treatment `loadBlockedList` applies to a parsed array:
`filter(v => typeof v === 'string' && v.trim() !== '')` then
`map(v => v.trim())`, fused into one pass returning `none` for the elements
the filter drops. -/
def loadEntry : JVal → Option String
  | JVal.jstr s => if jsTrim s = "" then none else some (jsTrim s)
  | _ => none

/-- The script's `loadBlockedList()`:
`raw` missing or falsy, `JSON.parse` failure, or a non-array parse all fall
back to (a copy of) `DEFAULT_BLOCKLIST`; an array keeps exactly its string
elements whose trim is non-empty, each trimmed (`loadEntry`). -/
def loadBlockedList : StoredRaw → List String
  | StoredRaw.missing => DEFAULT_BLOCKLIST
  | StoredRaw.emptyStr => DEFAULT_BLOCKLIST
  | StoredRaw.badParse => DEFAULT_BLOCKLIST
  | StoredRaw.parsed (JVal.jarr l) => l.filterMap loadEntry
  | StoredRaw.parsed _ => DEFAULT_BLOCKLIST

/-- `Array.from(new Set(...))` on strings: keep the first occurrence of each
element, preserving insertion order (the iteration order of a JS `Set`). -/
def dedupFirstAux (seen : List String) : List String → List String
  | [] => []
  | x :: xs =>
      if x ∈ seen then dedupFirstAux seen xs
      else x :: dedupFirstAux (x :: seen) xs

/-- First-occurrence deduplication, as performed by
`Array.from(new Set(xs))` in `saveBlockedList`. -/
def dedupFirst (l : List String) : List String :=
  dedupFirstAux [] l

/-- The list `saveBlockedList` persists:
`Array.from(new Set(list.map(x => (x || '').trim()).filter(Boolean)))`. -/
def savedForm (list : List String) : List String :=
  dedupFirst ((list.map jsTrim).filter (fun s => !(s == "")))

/-- The browser storage cell: the current raw value under `STORAGE_KEY`,
plus whether `setItem` throws (e.g. storage quota exceeded). -/
structure Storage where
  content : StoredRaw
  failing : Bool
deriving Repr

/-- The script's `saveBlockedList(list)`: compute the trimmed, de-emptied,
first-occurrence-deduplicated form, `JSON.stringify` it and `setItem` it
(a stringified string array always re-parses as that array), returning
`true`; if `setItem` throws, catch, leave storage unchanged, return
`false`. -/
def saveBlockedList (st : Storage) (list : List String) : Bool × Storage :=
  if st.failing then (false, st)
  else
    (true, { st with
      content := StoredRaw.parsed (JVal.jarr ((savedForm list).map JVal.jstr)) })

/-- `buildBlockedSetFromSaved()`: the loaded entries mapped through `canon`.
The JS `Set` is used only for `has` (membership), so a list with `∈`
membership is a faithful model. -/
def buildBlockedSetFromSaved (st : StoredRaw) : List String :=
  (loadBlockedList st).map (fun s => canon (some s))

/-- The script-managed state of one listing row: the three marker
attributes, whether the row is displayed (`style.display` not `'none'`),
and the outcome `extractSellerFromRow` would produce for it (the DOM
fallback strategies are external collaborators; `none` models "no strategy
succeeded"). -/
structure Row where
  processed : Bool
  blocked : Bool
  hidden : Bool
  display : Bool
  seller : Option String
deriving Repr, DecidableEq

/-- The script's `hideRow`: `display:none`, set both marker attributes. -/
def hideRow (r : Row) : Row :=
  { r with display := false, blocked := true, hidden := true }

/-- The script's `unhideRow`: restore display, remove only the hidden
marker (the blocked marker is kept so the row can be re-hidden). -/
def unhideRow (r : Row) : Row :=
  { r with display := true, hidden := false }

/-- The per-row body of `processListings`: skip rows already marked
processed; mark the row processed; extract the seller; a falsy extraction
result (`null` or `''`) leaves the row untouched; otherwise hide the row
iff its canonical seller is in the blocked set. -/
def processRow (blockedSet : List String) (r : Row) : Row :=
  if r.processed then r
  else
    let r1 := { r with processed := true }
    match r.seller with
    | none => r1
    | some s =>
        if s = "" then r1
        else if canon (some s) ∈ blockedSet then hideRow r1 else r1

/-- The script's `processListings()`: rebuild the blocked set from storage,
then run the per-row body over every row found on the page (the trailing
`updateControlUI()` only rewrites the label/button and touches no row). -/
def processListings (st : StoredRaw) (rows : List Row) : List Row :=
  rows.map (processRow (buildBlockedSetFromSaved st))

/-- The per-row body of `toggleHiddenRows(show)`: rows carrying the blocked
marker are revealed (`unhideRow`) when `show`, else re-hidden
(`display:none` plus the hidden marker); other rows are not selected by the
`tr[data-blocked-by-userscript="true"]` query and stay untouched. -/
def toggleRow (sh : Bool) (r : Row) : Row :=
  if r.blocked then
    if sh then unhideRow r else { r with display := false, hidden := true }
  else r

/-- The script's `toggleHiddenRows(show)` over the page's rows (the
`currentlyShowingHidden` global and `updateControlUI()` touch no row). -/
def toggleHiddenRows (sh : Bool) (rows : List Row) : List Row :=
  rows.map (toggleRow sh)

/-- The row cleanup performed by the Save-button handler after a successful
save: rows carrying the blocked marker lose both markers and get their
display restored; then every row loses the processed marker. -/
def clearRowMarks (r : Row) : Row :=
  let r1 := if r.blocked then { r with blocked := false, hidden := false, display := true } else r
  { r1 with processed := false }

/-- The Save-button click handler, from `saveBlockedList(flattened)` on:
on success, clean up all row markers and immediately re-run
`processListings` against the newly saved list; on failure (`alert` aside)
change nothing. The `confirm` guard for an empty list and the textarea
splitting happen before this point and only shape `flattened`. -/
def saveBtnClick (st : Storage) (rows : List Row) (flattened : List String) :
    Bool × Storage × List Row :=
  match saveBlockedList st flattened with
  | (true, st1) => (true, st1, processListings st1.content (rows.map clearRowMarks))
  | (false, st1) => (false, st1, rows)

end DiscogsBlocker

namespace DiscogsBlocker

/-- A character kept by the canonicalizing filter is a lowercase ASCII
letter or digit, hence untouched by `jsToLower`. -/
theorem jsToLower_fixed {c : Char} (h : isLowerAlnum c = true) : jsToLower c = c := by
  unfold isLowerAlnum at h
  rw [decide_eq_true_eq] at h
  unfold jsToLower
  rw [if_neg]
  omega

theorem isLowerAlnum_of_mem_canonData {c : Char} {l : List Char}
    (h : c ∈ canonData l) : isLowerAlnum c = true := by
  unfold canonData at h
  exact (List.mem_filter.mp h).2

theorem canonData_fixed {l : List Char} (h : ∀ c ∈ l, isLowerAlnum c = true) :
    canonData l = l := by
  unfold canonData
  have h2 : List.map jsToLower l = l := by
    rw [List.map_congr_left (fun c hc => jsToLower_fixed (h c hc))]
    exact List.map_id l
  rw [h2]
  exact List.filter_eq_self.mpr h

theorem canonData_idem (l : List Char) : canonData (canonData l) = canonData l :=
  canonData_fixed (fun _ hc => isLowerAlnum_of_mem_canonData hc)

/-- If `dropWhile` returns a cons, its head fails the predicate. -/
theorem dropWhile_head_false {α : Type} {p : α → Bool} :
    ∀ {l x xs}, List.dropWhile p l = x :: xs → p x = false := by
  intro l
  induction l with
  | nil => intro x xs h; simp [List.dropWhile] at h
  | cons a as ih =>
    intro x xs h
    rw [List.dropWhile_cons] at h
    split at h
    · exact ih h
    · cases h
      simp_all

/-- The trimmed list has no leading whitespace left. -/
theorem dropWhile_trimData (l : List Char) :
    List.dropWhile isJsSpace (trimData l) = trimData l := by
  unfold trimData
  cases hR : List.rdropWhile isJsSpace (List.dropWhile isJsSpace l) with
  | nil => simp
  | cons x xs =>
    have hpre := List.rdropWhile_prefix isJsSpace (List.dropWhile isJsSpace l)
    rw [hR] at hpre
    obtain ⟨t, ht⟩ := hpre
    have hx : isJsSpace x = false := dropWhile_head_false (p := isJsSpace) ht.symm
    rw [List.dropWhile_cons, hx]
    simp

theorem trimData_idem (l : List Char) : trimData (trimData l) = trimData l := by
  rw [show trimData (trimData l) = List.rdropWhile isJsSpace (List.dropWhile isJsSpace (trimData l)) from rfl]
  rw [dropWhile_trimData]
  rw [show trimData l = List.rdropWhile isJsSpace (List.dropWhile isJsSpace l) from rfl]
  exact List.rdropWhile_idempotent _ _

theorem jsTrim_idem (s : String) : jsTrim (jsTrim s) = jsTrim s := by
  unfold jsTrim
  rw [show (String.mk (trimData s.data)).data = trimData s.data from rfl, trimData_idem]


theorem mem_dedupFirstAux {a : String} :
    ∀ (l seen : List String), a ∈ dedupFirstAux seen l ↔ a ∈ l ∧ a ∉ seen := by
  intro l
  induction l with
  | nil => intro seen; simp [dedupFirstAux]
  | cons x xs ih =>
    intro seen
    unfold dedupFirstAux
    split
    · rename_i hx
      rw [ih]
      simp only [List.mem_cons]
      constructor
      · rintro ⟨h1, h2⟩
        exact ⟨Or.inr h1, h2⟩
      · rintro ⟨h1 | h1, h2⟩
        · exact absurd (h1.symm ▸ hx) h2
        · exact ⟨h1, h2⟩
    · rename_i hx
      simp only [List.mem_cons, ih]
      constructor
      · rintro (h1 | ⟨h1, h2⟩)
        · exact ⟨Or.inl h1, by rw [h1]; exact hx⟩
        · exact ⟨Or.inr h1, fun hs => h2 (Or.inr hs)⟩
      · rintro ⟨h1 | h1, h2⟩
        · exact Or.inl h1
        · by_cases hax : a = x
          · exact Or.inl hax
          · refine Or.inr ⟨h1, ?_⟩
            rintro (h3 | h3)
            · exact hax h3
            · exact h2 h3

theorem nodup_dedupFirstAux : ∀ (l seen : List String), (dedupFirstAux seen l).Nodup := by
  intro l
  induction l with
  | nil => intro seen; simp [dedupFirstAux]
  | cons x xs ih =>
    intro seen
    unfold dedupFirstAux
    split
    · exact ih seen
    · refine List.Nodup.cons ?_ (ih (x :: seen))
      intro hmem
      exact ((mem_dedupFirstAux xs (x :: seen)).mp hmem).2 (List.mem_cons_self x seen)

theorem sublist_dedupFirstAux :
    ∀ (l seen : List String), List.Sublist (dedupFirstAux seen l) l := by
  intro l
  induction l with
  | nil => intro seen; simp [dedupFirstAux]
  | cons x xs ih =>
    intro seen
    unfold dedupFirstAux
    split
    · exact (ih seen).trans (List.sublist_cons_self x xs)
    · exact (ih (x :: seen)).cons₂ x

theorem mem_dedupFirst {a : String} {l : List String} : a ∈ dedupFirst l ↔ a ∈ l := by
  unfold dedupFirst
  rw [mem_dedupFirstAux]
  simp

theorem nodup_savedForm (l : List String) : (savedForm l).Nodup :=
  nodup_dedupFirstAux _ []

theorem sublist_savedForm (l : List String) :
    List.Sublist (savedForm l) ((l.map jsTrim).filter (fun s => !(s == ""))) :=
  sublist_dedupFirstAux _ []

theorem mem_savedForm {a : String} {l : List String} :
    a ∈ savedForm l ↔ a ∈ l.map jsTrim ∧ a ≠ "" := by
  unfold savedForm
  rw [mem_dedupFirst, List.mem_filter]
  simp

theorem savedForm_trimmed {a : String} {l : List String} (h : a ∈ savedForm l) :
    jsTrim a = a ∧ a ≠ "" := by
  obtain ⟨h1, h2⟩ := mem_savedForm.mp h
  obtain ⟨x, _, hx⟩ := List.mem_map.mp h1
  exact ⟨by rw [← hx, jsTrim_idem], h2⟩

theorem filterMap_of_all_some {α : Type} {f : α → Option α} :
    ∀ {l : List α}, (∀ a ∈ l, f a = some a) → l.filterMap f = l := by
  intro l
  induction l with
  | nil => intro h; rfl
  | cons x xs ih =>
    intro h
    rw [List.filterMap_cons, h x (List.mem_cons_self x xs),
      ih (fun a ha => h a (List.mem_cons_of_mem x ha))]

/-- Loading back what `saveBlockedList` stored returns exactly the saved
form: every stored entry is a trimmed non-empty string, so the load-time
filter keeps all of them and the load-time trim changes none of them. -/
theorem load_after_save (l : List String) :
    loadBlockedList (StoredRaw.parsed (JVal.jarr ((savedForm l).map JVal.jstr)))
      = savedForm l := by
  rw [show loadBlockedList (StoredRaw.parsed (JVal.jarr ((savedForm l).map JVal.jstr)))
      = ((savedForm l).map JVal.jstr).filterMap loadEntry from rfl]
  rw [List.filterMap_map]
  refine filterMap_of_all_some ?_
  intro a ha
  obtain ⟨ht, hne⟩ := savedForm_trimmed ha
  show (if jsTrim a = "" then none else some (jsTrim a)) = some a
  rw [ht, if_neg hne]


/-- Claim C3: `canon` is a total pure function returning `""` on null or
empty input and otherwise the input lowercased with every character outside
`[a-z0-9]` removed; the three spellings of kupiku-eu canonicalize alike. -/
theorem claim_c3 :
    canon none = "" ∧ canon (some "") = "" ∧
    (∀ s : String, (canon (some s)).data = (s.data.map jsToLower).filter isLowerAlnum) ∧
    canon (some "KUPIKU-EU") = canon (some "kupiku.eu") ∧
    canon (some "kupiku.eu") = canon (some "KupikuEU") := by
  refine ⟨rfl, by decide, ?_, by decide, by decide⟩
  intro s
  by_cases h : s = ""
  · subst h
    decide
  · have h1 : canon (some s) = String.mk (canonData s.data) := by
      simp only [canon, if_neg h]
    rw [h1]
    rfl

/-- Claim C4: canonicalization is idempotent on every string. -/
theorem claim_c4 : ∀ x : String, canon (some (canon (some x))) = canon (some x) := by
  intro x
  by_cases h : x = ""
  · subst h
    decide
  · have h1 : canon (some x) = String.mk (canonData x.data) := by
      simp only [canon, if_neg h]
    rw [h1]
    by_cases h2 : String.mk (canonData x.data) = ""
    · rw [h2]
      decide
    · simp only [canon, if_neg h2]
      rw [canonData_idem]


/-- Claim C2, counterexample: a persisted array that is not entirely made
of strings does not make `loadBlockedList` return the defaults — the
non-string elements are filtered out instead. -/
theorem claim_c2_counterexample :
    loadBlockedList (StoredRaw.parsed (JVal.jarr [JVal.jstr "a", JVal.jnum 1])) = ["a"] ∧
    ["a"] ≠ DEFAULT_BLOCKLIST := by
  constructor
  · decide
  · decide

/-- Claim C2 as amended: `loadBlockedList` returns the built-in defaults
exactly when the persisted value is missing, falsy, unparsable, or parses
to a non-array; when it parses to an array the defaults are not used — the
array's non-string elements are dropped and its string elements with
non-empty trim are kept, trimmed.  (Totality — "never raises" — holds by
construction: `loadBlockedList` is a total function.) -/
theorem claim_c2_amended :
    loadBlockedList StoredRaw.missing = DEFAULT_BLOCKLIST ∧
    loadBlockedList StoredRaw.emptyStr = DEFAULT_BLOCKLIST ∧
    loadBlockedList StoredRaw.badParse = DEFAULT_BLOCKLIST ∧
    (∀ j : JVal, (∀ l : List JVal, j ≠ JVal.jarr l) →
      loadBlockedList (StoredRaw.parsed j) = DEFAULT_BLOCKLIST) ∧
    (∀ l : List JVal,
      loadBlockedList (StoredRaw.parsed (JVal.jarr l))
        = loadBlockedList (StoredRaw.parsed (JVal.jarr (l.filter JVal.isStr)))) ∧
    (∀ l : List JVal, ∀ s : String,
      s ∈ loadBlockedList (StoredRaw.parsed (JVal.jarr l)) ↔
        ∃ t : String, JVal.jstr t ∈ l ∧ jsTrim t = s ∧ s ≠ "") := by
  refine ⟨rfl, rfl, rfl, ?_, ?_, ?_⟩
  · intro j hj
    cases j with
    | jarr l => exact absurd rfl (hj l)
    | jnull => rfl
    | jbool b => rfl
    | jnum n => rfl
    | jstr t => rfl
    | jobj => rfl
  · intro l
    show l.filterMap loadEntry = (l.filter JVal.isStr).filterMap loadEntry
    induction l with
    | nil => rfl
    | cons j js ih =>
      cases j with
      | jstr t =>
        rw [List.filter_cons, show JVal.isStr (JVal.jstr t) = true from rfl]
        simp only [if_pos]
        rw [List.filterMap_cons, List.filterMap_cons, ih]
      | jnull => simpa [List.filter_cons, List.filterMap_cons, JVal.isStr, loadEntry] using ih
      | jbool b => simpa [List.filter_cons, List.filterMap_cons, JVal.isStr, loadEntry] using ih
      | jnum n => simpa [List.filter_cons, List.filterMap_cons, JVal.isStr, loadEntry] using ih
      | jarr xs => simpa [List.filter_cons, List.filterMap_cons, JVal.isStr, loadEntry] using ih
      | jobj => simpa [List.filter_cons, List.filterMap_cons, JVal.isStr, loadEntry] using ih
  · intro l s
    show s ∈ l.filterMap loadEntry ↔ _
    rw [List.mem_filterMap]
    constructor
    · rintro ⟨j, hj, hjs⟩
      cases j with
      | jstr t =>
        have : (if jsTrim t = "" then none else some (jsTrim t)) = some s := hjs
        by_cases ht : jsTrim t = ""
        · rw [if_pos ht] at this
          cases this
        · rw [if_neg ht] at this
          have hs : jsTrim t = s := Option.some.inj this
          exact ⟨t, hj, hs, by rw [← hs]; exact ht⟩
      | jnull => cases hjs
      | jbool b => cases hjs
      | jnum n => cases hjs
      | jarr xs => cases hjs
      | jobj => cases hjs
    · rintro ⟨t, ht, hts, hs⟩
      refine ⟨JVal.jstr t, ht, ?_⟩
      show (if jsTrim t = "" then none else some (jsTrim t)) = some s
      rw [hts, if_neg hs]

/-- Witness for `claim_c2_amended` at concrete inputs: a parsed non-array
string falls back to the defaults, and a concrete array produces exactly its
trimmed string elements. -/
theorem claim_c2_amended_witness :
    loadBlockedList (StoredRaw.parsed (JVal.jstr "x")) = DEFAULT_BLOCKLIST ∧
    ("b" ∈ loadBlockedList (StoredRaw.parsed (JVal.jarr [JVal.jnum 3, JVal.jstr "  b  "])) ↔
      ∃ t : String, JVal.jstr t ∈ [JVal.jnum 3, JVal.jstr "  b  "] ∧ jsTrim t = "b" ∧ "b" ≠ "") := by
  constructor
  · exact claim_c2_amended.2.2.2.1 (JVal.jstr "x") (fun l h => JVal.noConfusion h)
  · exact claim_c2_amended.2.2.2.2.2 [JVal.jnum 3, JVal.jstr "  b  "] "b"



/-- Claim C5: `saveBlockedList` trims each entry, discards the ones that
become empty, deduplicates on exact trimmed-string equality keeping the
first occurrence (so first-seen order is preserved: the result is a nodup
sublist of the trimmed-filtered input containing exactly its members),
persists that sequence, and returns `true` exactly when persistence
succeeded and `false` on a storage failure; `["KUPIKU-EU", "kupiku-eu"]`
keeps both entries, and dedup keeps first occurrences in order. -/
theorem claim_c5 (st : Storage) (entries : List String) :
    ((saveBlockedList st entries).1 = true ↔ st.failing = false) ∧
    (st.failing = true → saveBlockedList st entries = (false, st)) ∧
    (st.failing = false →
      (saveBlockedList st entries).2.content
        = StoredRaw.parsed (JVal.jarr ((savedForm entries).map JVal.jstr))) ∧
    (savedForm entries).Nodup ∧
    List.Sublist (savedForm entries) ((entries.map jsTrim).filter (fun s => !(s == ""))) ∧
    (∀ s : String, s ∈ savedForm entries ↔ s ∈ entries.map jsTrim ∧ s ≠ "") ∧
    savedForm ["KUPIKU-EU", "kupiku-eu"] = ["KUPIKU-EU", "kupiku-eu"] ∧
    savedForm ["b", "a", "b"] = ["b", "a"] := by
  refine ⟨?_, ?_, ?_, nodup_savedForm entries, sublist_savedForm entries,
    fun s => mem_savedForm, by decide, by decide⟩
  · cases hf : st.failing <;> simp [saveBlockedList, hf]
  · intro hf
    simp [saveBlockedList, hf]
  · intro hf
    simp [saveBlockedList, hf]

/-- Witness for `claim_c5`: both storage outcomes at concrete inputs. -/
theorem claim_c5_witness :
    saveBlockedList ⟨StoredRaw.missing, true⟩ ["x"] = (false, ⟨StoredRaw.missing, true⟩) ∧
    (saveBlockedList ⟨StoredRaw.missing, false⟩ [" a ", "a ", "b"]).2.content
      = StoredRaw.parsed (JVal.jarr [JVal.jstr "a", JVal.jstr "b"]) := by
  constructor
  · exact (claim_c5 ⟨StoredRaw.missing, true⟩ ["x"]).2.1 rfl
  · have h := (claim_c5 ⟨StoredRaw.missing, false⟩ [" a ", "a ", "b"]).2.2.1 rfl
    rw [h]
    rfl

/-- Claim C6: after a successful save, loading returns exactly the saved
form — in particular saving `[]` yields `[]` on load, a state distinct from
the (non-empty) defaults used when nothing is persisted. -/
theorem claim_c6 (st : Storage) (entries : List String) (h : st.failing = false) :
    loadBlockedList (saveBlockedList st []).2.content = [] ∧
    DEFAULT_BLOCKLIST ≠ [] ∧
    loadBlockedList (saveBlockedList st entries).2.content = savedForm entries := by
  have hgen : ∀ l : List String,
      loadBlockedList (saveBlockedList st l).2.content = savedForm l := by
    intro l
    simp only [saveBlockedList, h]
    simp only [Bool.false_eq_true, if_false]
    exact load_after_save l
  refine ⟨?_, by decide, hgen entries⟩
  rw [hgen []]
  rfl

/-- Witness for `claim_c6` at a concrete working storage cell. -/
theorem claim_c6_witness :
    loadBlockedList (saveBlockedList ⟨StoredRaw.badParse, false⟩ []).2.content = [] ∧
    DEFAULT_BLOCKLIST ≠ [] ∧
    loadBlockedList (saveBlockedList ⟨StoredRaw.badParse, false⟩ [" a ", "a ", "b"]).2.content
      = savedForm [" a ", "a ", "b"] :=
  claim_c6 ⟨StoredRaw.badParse, false⟩ [" a ", "a ", "b"] rfl



/-- Closed form of a reconciliation visit, by cases on the row state. -/
theorem processRow_eq (bset : List String) (p b hd d : Bool) (sl : Option String) :
    processRow bset ⟨p, b, hd, d, sl⟩ =
      if p then ⟨p, b, hd, d, sl⟩
      else
        match sl with
        | none => ⟨true, b, hd, d, sl⟩
        | some s =>
            if s = "" then ⟨true, b, hd, d, sl⟩
            else if canon (some s) ∈ bset then ⟨true, true, true, false, sl⟩
            else ⟨true, b, hd, d, sl⟩ := by
  cases p <;> cases sl <;> rfl

/-- A reconciliation visit of an unprocessed row sets the processed
marker, whatever the extraction outcome. -/
theorem processRow_sets_processed (bset : List String) (r : Row)
    (h : r.processed = false) : (processRow bset r).processed = true := by
  obtain ⟨p, b, hd, d, sl⟩ := r
  cases p with
  | true => cases h
  | false =>
    rw [processRow_eq]
    cases sl with
    | none => rfl
    | some s =>
      by_cases hs : s = ""
      · simp [hs]
      · by_cases hm : canon (some s) ∈ bset <;> simp [hs, hm]

/-- Claim C1: a visited unprocessed row is marked processed regardless of
extraction outcome; a row whose extracted seller canonicalizes into the
blocked set gets both the blocked and hidden markers (and is undisplayed);
a row with no extracted seller gets no blocked/hidden flag change. -/
theorem claim_c1 (bset : List String) (r : Row) (h : r.processed = false) :
    (processRow bset r).processed = true ∧
    (∀ s : String, r.seller = some s → s ≠ "" → canon (some s) ∈ bset →
      (processRow bset r).blocked = true ∧ (processRow bset r).hidden = true ∧
        (processRow bset r).display = false) ∧
    (r.seller = none →
      (processRow bset r).blocked = r.blocked ∧ (processRow bset r).hidden = r.hidden ∧
        (processRow bset r).display = r.display) := by
  obtain ⟨p, b, hd, d, sl⟩ := r
  cases p with
  | true => cases h
  | false =>
    refine ⟨processRow_sets_processed bset ⟨false, b, hd, d, sl⟩ rfl, ?_, ?_⟩
    · intro s hsl hs hm
      cases hsl
      rw [processRow_eq]
      simp [hs, hm]
    · intro hsl
      cases hsl
      rw [processRow_eq]
      simp

/-- Witness for `claim_c1`: the spec's example — raw seller `"Justicker"`
against the default blocklist (which contains `"justicker"`) — ends blocked
and hidden; a row with no extractable seller keeps its flags. -/
theorem claim_c1_witness :
    (processRow (buildBlockedSetFromSaved StoredRaw.missing)
        ⟨false, false, false, true, some "Justicker"⟩).blocked = true ∧
    (processRow (buildBlockedSetFromSaved StoredRaw.missing)
        ⟨false, false, false, true, some "Justicker"⟩).hidden = true ∧
    (processRow (buildBlockedSetFromSaved StoredRaw.missing)
        ⟨false, false, false, true, none⟩).blocked = false := by
  have h1 := claim_c1 (buildBlockedSetFromSaved StoredRaw.missing)
    ⟨false, false, false, true, some "Justicker"⟩ rfl
  have h2 := claim_c1 (buildBlockedSetFromSaved StoredRaw.missing)
    ⟨false, false, false, true, none⟩ rfl
  obtain ⟨hb, hh, _⟩ := h1.2.1 "Justicker" rfl (by decide) (by decide)
  exact ⟨hb, hh, (h2.2.2 rfl).1⟩

/-- A row already marked processed is returned unchanged. -/
theorem processRow_skip (bset : List String) (r : Row) (h : r.processed = true) :
    processRow bset r = r := by
  unfold processRow
  rw [if_pos h]

/-- A reconciliation visit either sets the processed marker or returns the
row unchanged. -/
theorem processRow_marks (bset : List String) (r : Row) :
    (processRow bset r).processed = true ∨ processRow bset r = r := by
  cases hp : r.processed with
  | true => exact Or.inr (processRow_skip bset r hp)
  | false => exact Or.inl (processRow_sets_processed bset r hp)

/-- Claim C7: a second reconciliation pass over the output of a first pass,
against the same storage, changes nothing; rows already marked processed
are skipped entirely. -/
theorem claim_c7 (st : StoredRaw) (rows : List Row) :
    processListings st (processListings st rows) = processListings st rows ∧
    (∀ bset : List String, ∀ r : Row, r.processed = true → processRow bset r = r) := by
  refine ⟨?_, processRow_skip⟩
  unfold processListings
  rw [List.map_map]
  refine List.map_congr_left ?_
  intro r _
  show processRow _ (processRow _ r) = processRow _ r
  rcases processRow_marks (buildBlockedSetFromSaved st) r with h | h
  · exact processRow_skip _ _ h
  · rw [h, h]

/-- Witness for `claim_c7`: concrete second-pass run and a concrete skip of
an already-processed row. -/
theorem claim_c7_witness :
    processListings StoredRaw.missing
        (processListings StoredRaw.missing [⟨false, false, false, true, some "Justicker"⟩])
      = processListings StoredRaw.missing [⟨false, false, false, true, some "Justicker"⟩] ∧
    processRow ["justicker"] ⟨true, false, false, true, some "Justicker"⟩
      = ⟨true, false, false, true, some "Justicker"⟩ := by
  have h := claim_c7 StoredRaw.missing [⟨false, false, false, true, some "Justicker"⟩]
  exact ⟨h.1, h.2 ["justicker"] ⟨true, false, false, true, some "Justicker"⟩ rfl⟩

/-- Claim C10: a reconciliation visit is monotone on the three marker flags
and never reveals a row: it never clears blocked, hidden or processed and
never turns display back on, whatever the starting row state and whatever
the canonical set. -/
theorem claim_c10 (bset : List String) (r : Row) :
    (r.blocked = true → (processRow bset r).blocked = true) ∧
    (r.hidden = true → (processRow bset r).hidden = true) ∧
    (r.processed = true → (processRow bset r).processed = true) ∧
    (r.display = false → (processRow bset r).display = false) := by
  obtain ⟨p, b, hd, d, sl⟩ := r
  rw [processRow_eq]
  cases p with
  | true => simp
  | false =>
    cases sl with
    | none => simp
    | some s =>
      by_cases hs : s = ""
      · simp [hs]
      · by_cases hm : canon (some s) ∈ bset <;> simp [hs, hm]

/-- Witness for `claim_c10`: a blocked, hidden, undisplayed, processed row
stays so through a pass whose canonical set no longer lists its seller. -/
theorem claim_c10_witness :
    (processRow [] ⟨true, true, true, false, some "Justicker"⟩).blocked = true ∧
    (processRow [] ⟨true, true, true, false, some "Justicker"⟩).hidden = true ∧
    (processRow [] ⟨true, true, true, false, some "Justicker"⟩).processed = true ∧
    (processRow [] ⟨true, true, true, false, some "Justicker"⟩).display = false := by
  have h := claim_c10 [] ⟨true, true, true, false, some "Justicker"⟩
  exact ⟨h.1 rfl, h.2.1 rfl, h.2.2.1 rfl, h.2.2.2 rfl⟩


/-- Claim C8: the toggle sets `hidden = !show` (and `display = show`) on
every row flagged blocked and leaves every other row untouched; it never
alters blocked, processed or the extraction outcome; it is idempotent in
`show`; and toggling on then off leaves every blocked row hidden and still
blocked. -/
theorem claim_c8 (sh : Bool) (r : Row) (rows : List Row) :
    ((toggleRow sh r).blocked = r.blocked ∧ (toggleRow sh r).processed = r.processed ∧
      (toggleRow sh r).seller = r.seller) ∧
    (r.blocked = true → (toggleRow sh r).hidden = !sh ∧ (toggleRow sh r).display = sh) ∧
    (r.blocked = false → toggleRow sh r = r) ∧
    (r.blocked = true →
      (toggleRow false (toggleRow true r)).hidden = true ∧
      (toggleRow false (toggleRow true r)).blocked = true) ∧
    toggleHiddenRows sh (toggleHiddenRows sh rows) = toggleHiddenRows sh rows := by
  have hrow : ∀ r' : Row, toggleRow sh (toggleRow sh r') = toggleRow sh r' := by
    intro r'
    obtain ⟨p, b, hd, d, sl⟩ := r'
    cases b <;> cases sh <;> rfl
  obtain ⟨p, b, hd, d, sl⟩ := r
  refine ⟨?_, ?_, ?_, ?_, ?_⟩
  · cases b <;> cases sh <;> exact ⟨rfl, rfl, rfl⟩
  · intro hb
    cases hb
    cases sh <;> exact ⟨rfl, rfl⟩
  · intro hb
    cases hb
    cases sh <;> rfl
  · intro hb
    cases hb
    exact ⟨rfl, rfl⟩
  · unfold toggleHiddenRows
    rw [List.map_map]
    exact List.map_congr_left (fun r' _ => hrow r')

/-- Witness for `claim_c8`: a blocked hidden row revealed by `show = true`
then re-hidden by `show = false`, and an untouched unblocked row. -/
theorem claim_c8_witness :
    ((toggleRow true ⟨true, true, true, false, some "x"⟩).hidden = !true ∧
      (toggleRow true ⟨true, true, true, false, some "x"⟩).display = true) ∧
    toggleRow true ⟨true, false, false, true, some "y"⟩ = ⟨true, false, false, true, some "y"⟩ ∧
    ((toggleRow false (toggleRow true ⟨true, true, true, false, some "x"⟩)).hidden = true ∧
      (toggleRow false (toggleRow true ⟨true, true, true, false, some "x"⟩)).blocked = true) := by
  have h1 := claim_c8 true ⟨true, true, true, false, some "x"⟩ []
  have h2 := claim_c8 true ⟨true, false, false, true, some "y"⟩ []
  exact ⟨h1.2.1 rfl, h2.2.2.1 rfl, h1.2.2.2.1 rfl⟩

/-- On a reachable page (the hidden marker only ever accompanies the
blocked marker), the Save-handler cleanup clears all three markers. -/
theorem clearRowMarks_clears (r : Row) (h : r.hidden = true → r.blocked = true) :
    (clearRowMarks r).blocked = false ∧ (clearRowMarks r).hidden = false ∧
      (clearRowMarks r).processed = false ∧ (clearRowMarks r).seller = r.seller := by
  obtain ⟨p, b, hd, d, sl⟩ := r
  cases b with
  | true => exact ⟨rfl, rfl, rfl, rfl⟩
  | false =>
    cases hd with
    | true => cases h rfl
    | false => exact ⟨rfl, rfl, rfl, rfl⟩

/-- Claim C9: on save, success clears every row's markers and immediately
re-runs reconciliation against the newly persisted list (every resulting
row ends up processed); failure reports `false` and leaves storage and
every row exactly as they were. -/
theorem claim_c9 (st : Storage) (rows : List Row) (entries : List String)
    (hinv : ∀ r ∈ rows, r.hidden = true → r.blocked = true) :
    (st.failing = true → saveBtnClick st rows entries = (false, st, rows)) ∧
    (st.failing = false →
      (saveBtnClick st rows entries).1 = true ∧
      (saveBtnClick st rows entries).2.1.content
        = StoredRaw.parsed (JVal.jarr ((savedForm entries).map JVal.jstr)) ∧
      (∀ r ∈ rows.map clearRowMarks,
        r.blocked = false ∧ r.hidden = false ∧ r.processed = false) ∧
      (saveBtnClick st rows entries).2.2
        = processListings (StoredRaw.parsed (JVal.jarr ((savedForm entries).map JVal.jstr)))
            (rows.map clearRowMarks) ∧
      (∀ r ∈ (saveBtnClick st rows entries).2.2, r.processed = true)) := by
  constructor
  · intro hf
    simp [saveBtnClick, saveBlockedList, hf]
  · intro hf
    have hcleared : ∀ r ∈ rows.map clearRowMarks,
        r.blocked = false ∧ r.hidden = false ∧ r.processed = false := by
      intro r hr
      obtain ⟨r0, hr0, hr0e⟩ := List.mem_map.mp hr
      obtain ⟨h1, h2, h3, _⟩ := clearRowMarks_clears r0 (hinv r0 hr0)
      exact ⟨hr0e ▸ h1, hr0e ▸ h2, hr0e ▸ h3⟩
    have heq : saveBtnClick st rows entries
        = (true, { st with content := StoredRaw.parsed (JVal.jarr ((savedForm entries).map JVal.jstr)) },
            processListings (StoredRaw.parsed (JVal.jarr ((savedForm entries).map JVal.jstr)))
              (rows.map clearRowMarks)) := by
      simp [saveBtnClick, saveBlockedList, hf]
    refine ⟨by rw [heq], by rw [heq], hcleared, by rw [heq], ?_⟩
    rw [heq]
    intro r hr
    obtain ⟨r0, hr0, hr0e⟩ := List.mem_map.mp hr
    obtain ⟨_, _, h3⟩ := hcleared r0 hr0
    exact hr0e ▸ processRow_sets_processed _ r0 h3

/-- Witness for `claim_c9`: a failing save leaves a concrete page alone; a
succeeding save persists the list, clears markers and reprocesses. -/
theorem claim_c9_witness :
    saveBtnClick ⟨StoredRaw.missing, true⟩ [⟨true, true, true, false, some "Justicker"⟩] ["magius"]
      = (false, ⟨StoredRaw.missing, true⟩, [⟨true, true, true, false, some "Justicker"⟩]) ∧
    (saveBtnClick ⟨StoredRaw.missing, false⟩ [⟨true, true, true, false, some "Justicker"⟩]
        ["magius"]).1 = true ∧
    (∀ r ∈ ([⟨true, true, true, false, some "Justicker"⟩] : List Row).map clearRowMarks,
      r.blocked = false ∧ r.hidden = false ∧ r.processed = false) := by
  have h1 := claim_c9 ⟨StoredRaw.missing, true⟩ [⟨true, true, true, false, some "Justicker"⟩]
    ["magius"] (by intro r hr _; cases List.mem_singleton.mp hr; rfl)
  have h2 := claim_c9 ⟨StoredRaw.missing, false⟩ [⟨true, true, true, false, some "Justicker"⟩]
    ["magius"] (by intro r hr _; cases List.mem_singleton.mp hr; rfl)
  exact ⟨h1.1 rfl, (h2.2 rfl).1, (h2.2 rfl).2.2.1⟩


end DiscogsBlocker
